import Mathlib

/-!
Shallow embedding of the go-redis client core:
the integer codec (strconv.go), the wire codec over a byte stream
(connection.go), the connection pool (client.go) and the pipeline
(pipeline.go).  Machine integers (int64/uint64) are modelled as `Int`/`Nat`
with explicit reduction modulo 2^64 where Go arithmetic wraps.  A Go panic
(out-of-bounds slice index) is modelled by an `Option` result being `none`.
Byte slices and strings on the wire are modelled as `List Nat` (byte values).
-/

namespace Redis

/-- The error values of the package.  `errReply` models the `ErrReply`
struct (a well-formed server-level error reply); all other constructors
model the sentinel `errors.New` values plus generic I/O errors. -/
inductive GoError where
  | ioError
  | invalidReplyMarker
  | invalidValue
  | invalidArgumentType
  | invalidStatus
  | errReply (tag msg : List Nat)
deriving DecidableEq

/-- Two's-complement wrap of an unbounded integer into the int64 range,
modelling Go's wrapping signed 64-bit arithmetic. -/
def wrap64 (x : Int) : Int :=
  (x + 9223372036854775808) % 18446744073709551616 - 9223372036854775808

/-- Conversion `uint64(x)` of an int64 value: reinterpretation modulo 2^64. -/
def toUint64 (x : Int) : Nat :=
  (x % 18446744073709551616).toNat

/-! ## strconv.go -/

def digits01 : String :=
  "0123456789012345678901234567890123456789012345678901234567890123456789012345678901234567890123456789"

def digits10 : String :=
  "0000000000111111111122222222223333333333444444444455555555556666666666777777777788888888889999999999"

/-- Byte `s[j]` of one of the two digit lookup tables (ASCII content, so the
byte at index `j` is the code of the `j`-th character). -/
def tableGet (s : String) (j : Nat) : Nat :=
  (s.data.getD j ' ').toNat

/-- The digit-accumulation loop of `btoi64`: `i64 = (i64 * 10) + d` in
wrapping int64 arithmetic, rejecting any byte outside `'0'..'9'`. -/
def btoiLoop : List Nat → Int → Except GoError Int
  | [], acc => .ok acc
  | c :: rest, acc =>
    let d : Int := (c : Int) - 48
    if d < 0 ∨ 9 < d then .error .invalidValue
    else btoiLoop rest (wrap64 (acc * 10 + d))

/-- `btoi64(b)`: parse an ASCII decimal with optional leading `-`.
Returns `ErrInvalidValue` for empty input, a lone `-`, or any non-digit
byte; the final negation wraps like Go's `i64 = -i64`. -/
def btoi64 (b : List Nat) : Except GoError Int :=
  if b.length = 0 then .error .invalidValue
  else if b.headD 0 = 45 then
    if b.length = 1 then .error .invalidValue
    else
      match btoiLoop (b.drop 1) 0 with
      | .error e => .error e
      | .ok v => .ok (wrap64 (-v))
  else
    match btoiLoop b 0 with
    | .error e => .error e
    | .ok v => .ok v

/-- The `for u >= 100` loop of `itob64`.  The Go code writes digit pairs
into the tail of a 24-byte array, moving the cursor `o` backwards; the
slice `a[o:]` is represented here by the accumulated list, and each
iteration prepends the pair `digits10[j], digits01[j]` for `j = u mod 100`. -/
def itobLoop (u : Nat) (s : List Nat) : Nat × List Nat :=
  if h : 100 ≤ u then
    let q := u / 100
    let j := u - q * 100
    itobLoop q (tableGet digits10 j :: tableGet digits01 j :: s)
  else (u, s)
termination_by u
decreasing_by omega

/-- The two straight-line steps of `itob64` that follow the loop: one more
digit pair split if `10 <= u`, then the final leading digit. -/
def midFinal (p : Nat × List Nat) : List Nat :=
  let p2 :=
    if 10 ≤ p.1 then (p.1 / 10, tableGet digits01 (p.1 - p.1 / 10 * 10) :: p.2)
    else p
  tableGet digits01 p2.1 :: p2.2

/-- Digit production of `itob64` for magnitude `u`, prepended to suffix `s`
(the contents of `a[o:]` when the sign position is reached). -/
def digitsPhase (u : Nat) (s : List Nat) : List Nat :=
  midFinal (itobLoop u s)

/-- `itob64(i, b)`: format `i` in decimal into a buffer of length `blen`.
The output is the bytes of the returned sub-slice `b[:n]`; `copy` truncates
to the buffer length when the representation is longer. -/
def itob64 (i : Int) (blen : Nat) : List Nat :=
  if blen < 1 then []
  else if i = 0 then [48]
  else
    let u : Nat := if i < 0 then toUint64 (wrap64 (-i)) else toUint64 i
    let ds0 := digitsPhase u []
    let ds := if i < 0 then 45 :: ds0 else ds0
    let n := if blen < ds.length then blen else ds.length
    ds.take n

/-- Reference definition (mathematical): ASCII decimal digits of `n`,
most significant first. -/
def msbBytes (n : Nat) : List Nat :=
  if n < 10 then [48 + n] else msbBytes (n / 10) ++ [48 + n % 10]
termination_by n
decreasing_by omega

/-- Reference definition following the spec's words: the full untruncated
ASCII decimal representation of an int64, sign included. -/
def fullDecimalRep (i : Int) : List Nat :=
  (if i < 0 then [45] else []) ++ msbBytes i.natAbs

/-! ## bufio reader model

The connection's `bufio.Reader` (buffer size 4096) over the incoming byte
stream.  `ReadByte` pops one byte; `ReadLine` returns the bytes before the
first `'\n'` with a trailing `'\r'` stripped, or reports a too-long line
via `isPrefix` when no newline occurs within the buffer. -/

/-- Bytes strictly before the first `'\n'` (10) together with the bytes
after it, or `none` when the stream holds no newline. -/
def takeLine : List Nat → Option (List Nat × List Nat)
  | [] => none
  | c :: rest =>
    if c = 10 then some ([], rest)
    else (takeLine rest).map (fun p => (c :: p.1, p.2))

/-- Strip one trailing `'\r'` (13), as `bufio.ReadLine` does. -/
def stripCR (l : List Nat) : List Nat :=
  if l.getLast? = some 13 then l.dropLast else l

def bufioReadByte (s : List Nat) : Except GoError (Nat × List Nat) :=
  match s with
  | [] => .error .ioError
  | c :: rest => .ok (c, rest)

/-- `bufio.Reader.ReadLine` over the remaining stream: result is
`(line, isPfx, rest)`. -/
def bufioReadLine (s : List Nat) : Except GoError (List Nat × Bool × List Nat) :=
  match takeLine s with
  | some (line0, rest) =>
    if line0.length < 4096 then .ok (stripCR line0, false, rest)
    else .ok (s.take 4096, true, s.drop 4096)
  | none =>
    if 4096 ≤ s.length then .ok (s.take 4096, true, s.drop 4096)
    else if s.length = 0 then .error .ioError
    else .ok (s, false, [])

/-! ## connection.go -/

/-- The body of Go's `strings.SplitN(s, sep, n)` for `sep = " "` and
`n > 0`: the argument is `n - 1`, the maximal number of splits performed;
the unsplit remainder is the final element. -/
def genSplitGo (s : List Nat) : Nat → List (List Nat)
  | 0 => [s]
  | k + 1 =>
    match s.findIdx? (· = 32) with
    | none => [s]
    | some m => s.take m :: genSplitGo (s.drop (m + 1)) k

/-- `strings.SplitN(s, " ", n)` for `n ≥ 0`. -/
def splitNSpace (s : List Nat) (n : Nat) : List (List Nat) :=
  match n with
  | 0 => []
  | k + 1 => genSplitGo s k

/-- `parseErrReply(s)`: `p := strings.SplitN(s, " ", 1)` followed by the
indexing `p[0]`, `p[1]`.  An out-of-bounds index panics in Go, modelled by
`none`. -/
def parseErrReply (s : List Nat) : Option (List Nat × List Nat) :=
  let p := splitNSpace s 1
  match p.get? 0, p.get? 1 with
  | some tag, some msg => some (tag, msg)
  | _, _ => none

/-- The line-reading tail of `readError` (after the optional marker
check): read a line, reject an over-long line, then hand the text to
`parseErrReply`.  `none` models the panic inside `parseErrReply`. -/
def readErrorBody (s : List Nat) : Option (GoError × List Nat) :=
  match bufioReadLine s with
  | .error e => some (e, s)
  | .ok (line, isPfx, s1) =>
    if isPfx then some (.invalidValue, s1)
    else
      match parseErrReply line with
      | none => none
      | some (tag, msg) => some (.errReply tag msg, s1)

/-- `redisConnection.readError(readMarker)`: returns the error value it
produces together with the remaining stream; `none` models a panic. -/
def readError (readMarker : Bool) (s : List Nat) : Option (GoError × List Nat) :=
  if readMarker then
    match bufioReadByte s with
    | .error e => some (e, s)
    | .ok (m, s1) =>
      if m ≠ 45 then some (.invalidReplyMarker, s1)
      else readErrorBody s1
  else readErrorBody s

/-- `redisConnection.readI64`: read a marker byte, divert an error marker
to `readError`, else read one line and decode it.  Result carries the
value, the marker seen, the error (if any) and the remaining stream;
`none` models a panic. -/
def readI64 (s : List Nat) : Option (Int × Nat × Option GoError × List Nat) :=
  match bufioReadByte s with
  | .error e => some (-1, 0, some e, s)
  | .ok (marker, s1) =>
    if marker = 45 then
      match readError false s1 with
      | none => none
      | some (e, s2) => some (-1, marker, some e, s2)
    else
      match bufioReadLine s1 with
      | .error e => some (-1, marker, some e, s1)
      | .ok (line, isPfx, s2) =>
        if isPfx then some (-1, marker, some .invalidValue, s2)
        else
          match btoi64 line with
          | .error e => some (0, marker, some e, s2)
          | .ok n => some (n, marker, none, s2)

/-- `redisConnection.readBulkBytes`: value is `none` for a null bulk
reply, `some payload` otherwise; outer `none` models a panic. -/
def readBulkBytes (s : List Nat) :
    Option (Option (List Nat) × Option GoError × List Nat) :=
  match readI64 s with
  | none => none
  | some (_, _, some e, s1) => some (none, some e, s1)
  | some (n, marker, none, s1) =>
    if n < 0 then some (none, none, s1)
    else if marker ≠ 36 then some (none, some .invalidReplyMarker, s1)
    else if s1.length < n.toNat + 2 then some (none, some .ioError, [])
    else some (some (s1.take n.toNat), none, s1.drop (n.toNat + 2))

/-- `redisConnection.readBulkString`: like `readBulkBytes` but returns a
string, so the absent value is the empty string.  (The scratch-buffer
reuse for small payloads only affects allocation, not the value read.) -/
def readBulkString (s : List Nat) :
    Option (List Nat × Option GoError × List Nat) :=
  match readI64 s with
  | none => none
  | some (_, _, some e, s1) => some ([], some e, s1)
  | some (n, marker, none, s1) =>
    if n < 0 then some ([], none, s1)
    else if marker ≠ 36 then some ([], some .invalidReplyMarker, s1)
    else if s1.length < n.toNat + 2 then some ([], some .ioError, [])
    else some (s1.take n.toNat, none, s1.drop (n.toNat + 2))

/-- `redisConnection.readStatusBytes`: read marker and line, then dispatch
on the marker (`'+'` 43, `'-'` 45, `'$'` 36).  Value `none` is a null /
absent status; outer `none` models a panic. -/
def readStatusBytes (s : List Nat) :
    Option (Option (List Nat) × Option GoError × List Nat) :=
  match bufioReadByte s with
  | .error e => some (none, some e, s)
  | .ok (m, s1) =>
    match bufioReadLine s1 with
    | .error e => some (none, some e, s1)
    | .ok (line, isPfx, s2) =>
      if isPfx then some (none, some .invalidValue, s2)
      else if m = 43 then some (some line, none, s2)
      else if m = 45 then
        match parseErrReply line with
        | none => none
        | some (tag, msg) => some (none, some (.errReply tag msg), s2)
      else if m = 36 ∧ line = [45, 49] then some (none, none, s2)
      else some (none, some .invalidReplyMarker, s2)

/-! ## client.go: connection pool -/

/-- The pool state of `Client`: the mutex-guarded free list (connections
as opaque ids, most recently released last) and the configured maximum. -/
structure Pool where
  idleConn : List Nat
  maxIdleConn : Int
deriving DecidableEq

/-- `Client.pushConnection`: close the connection (second component
`true`) when the free list is at or above capacity, else append it. -/
def pushConnection (p : Pool) (c : Nat) : Pool × Bool :=
  if p.maxIdleConn ≤ (p.idleConn.length : Int) then (p, true)
  else (⟨p.idleConn ++ [c], p.maxIdleConn⟩, false)

/-- `Client.popConnection`: pop the most recently released connection, or
dial a fresh one (`fresh`) when the free list is empty. -/
def popConnection (p : Pool) (fresh : Nat) : Pool × Nat :=
  if p.idleConn.length = 0 then (p, fresh)
  else (⟨p.idleConn.dropLast, p.maxIdleConn⟩, p.idleConn.getLastD fresh)

/-- `Client.SetMaxIdleConncetions` (name as in the source): only stores
the new maximum, closing nothing. -/
def SetMaxIdleConncetions (p : Pool) (m : Int) : Pool :=
  ⟨p.idleConn, m⟩

inductive PoolOp where
  | push (c : Nat)
  | pop (fresh : Nat)
  | setMax (m : Int)

def poolStep (p : Pool) : PoolOp → Pool
  | .push c => (pushConnection p c).1
  | .pop fresh => (popConnection p fresh).1
  | .setMax m => SetMaxIdleConncetions p m

def poolRun (p : Pool) (ops : List PoolOp) : Pool :=
  ops.foldl poolStep p

/-- The type assertion `err.(ErrReply)` on an error value. -/
def isErrReplyE : GoError → Bool
  | .errReply _ _ => true
  | _ => false

/-- Result of `Client.withConnection`: the pool afterwards, the connection
used, whether its socket was closed on the error path, whether
`pushConnection` closed it as excess, and the returned error. -/
structure WithConnResult where
  pool : Pool
  conn : Nat
  closedOnError : Bool
  closedByPool : Bool
  result : Option GoError
deriving DecidableEq

/-- `Client.withConnection(fn)`: pop a connection, run the body, then
either close the socket (any non-`ErrReply` error) or route the
connection back through `pushConnection`. -/
def withConnection (p : Pool) (fresh : Nat) (body : Nat → Option GoError) :
    WithConnResult :=
  let pc := popConnection p fresh
  let c := pc.2
  match body c with
  | some e =>
    if isErrReplyE e then
      let pr := pushConnection pc.1 c
      ⟨pr.1, c, false, pr.2, some e⟩
    else ⟨pc.1, c, true, false, some e⟩
  | none =>
    let pr := pushConnection pc.1 c
    ⟨pr.1, c, false, pr.2, none⟩

/-- `okStatus`, the byte literal `"OK"`. -/
def okStatus : List Nat := [79, 75]

/-- The result check of `Client.set` (shared by Set/SetNX/SetXX), applied
to the outcome of the underlying status request:
`if err == nil && status != nil && !bytes.Equal(status, okStatus)
 { err = ErrInvalidStatus }; return status != nil, err`. -/
def clientSet (status : Option (List Nat)) (e : Option GoError) :
    Bool × Option GoError :=
  let e2 :=
    if e = none ∧ status ≠ none ∧ status ≠ some okStatus then
      some GoError.invalidStatus
    else e
  (status.isSome, e2)

/-! ## pipeline.go and the Reply variants -/

inductive ReplyKind where
  | simple
  | bulk
deriving DecidableEq

/-- A `Reply` after resolution: the stored value and stored error. -/
structure ResolvedReply where
  kind : ReplyKind
  val : Option (List Nat)
  rerr : Option GoError
deriving DecidableEq

/-- `Reply.read` for each variant: consume the framed value; a non-
`ErrReply` error aborts (returned to `Flush`), an `ErrReply` is stored on
the reply.  `none` models a panic. -/
def replyRead (k : ReplyKind) (s : List Nat) :
    Option (Except GoError (ResolvedReply × List Nat)) :=
  match k with
  | .bulk =>
    match readBulkBytes s with
    | none => none
    | some (v, some e, s1) =>
      if isErrReplyE e then some (.ok (⟨.bulk, v, some e⟩, s1))
      else some (.error e)
    | some (v, none, s1) => some (.ok (⟨.bulk, v, none⟩, s1))
  | .simple =>
    match readStatusBytes s with
    | none => none
    | some (_, some e, s1) =>
      if isErrReplyE e then some (.ok (⟨.simple, none, some e⟩, s1))
      else some (.error e)
    | some (_, none, s1) => some (.ok (⟨.simple, none, none⟩, s1))

/-- The resolution loop of `Pipeline.Flush` over the pending replies. -/
def flushLoop : List ReplyKind → List Nat → List ResolvedReply →
    Option (Except GoError (List ResolvedReply × List Nat))
  | [], s, acc => some (.ok (acc.reverse, s))
  | k :: ks, s, acc =>
    match replyRead k s with
    | none => none
    | some (.error e) => some (.error e)
    | some (.ok (r, s1)) => flushLoop ks s1 (r :: acc)

/-- Outcome of `Pipeline.Flush`: pool afterwards, number of buffered-write
flushes performed, whether the connection was closed by the error path,
and either the aborting error or the resolved replies in enqueue order. -/
structure FlushOutcome where
  pool : Pool
  flushes : Nat
  connClosed : Bool
  result : Except GoError (List ResolvedReply)

/-- `Pipeline.Flush`: flush the write buffer once, then resolve the
pending replies in enqueue order from the shared stream; on an aborting
error close the connection, otherwise push it back to the pool.  `none`
models a panic. -/
def pipelineFlush (p : Pool) (connId : Nat) (replies : List ReplyKind)
    (s : List Nat) : Option FlushOutcome :=
  match flushLoop replies s [] with
  | none => none
  | some (.error e) => some ⟨p, 1, true, .error e⟩
  | some (.ok (rs, _)) =>
    let pr := pushConnection p connId
    some ⟨pr.1, 1, false, .ok rs⟩

/-! ## Arithmetic lemmas about the int64 model -/

theorem wrap64_eq_self (x : Int) (h1 : -9223372036854775808 ≤ x)
    (h2 : x < 9223372036854775808) : wrap64 x = x := by
  unfold wrap64; omega

theorem wrap64_range (x : Int) :
    -9223372036854775808 ≤ wrap64 x ∧ wrap64 x < 9223372036854775808 := by
  unfold wrap64; omega

theorem wrap64_mul10_add (x d : Int) :
    wrap64 (wrap64 x * 10 + d) = wrap64 (x * 10 + d) := by
  unfold wrap64; omega

theorem wrap64_neg_wrap (x : Int) : wrap64 (-wrap64 x) = wrap64 (-x) := by
  unfold wrap64; omega

/-! ## The digit lookup tables -/

theorem tableGet01_eq : ∀ j, j < 100 → tableGet digits01 j = 48 + j % 10 := by
  decide

theorem tableGet10_eq : ∀ j, j < 100 → tableGet digits10 j = 48 + j / 10 := by
  decide

/-! ## Decimal-digit facts -/

theorem msbBytes_lt10 (n : Nat) (h : n < 10) : msbBytes n = [48 + n] := by
  rw [msbBytes, if_pos h]

theorem msbBytes_ge10 (n : Nat) (h : 10 ≤ n) :
    msbBytes n = msbBytes (n / 10) ++ [48 + n % 10] := by
  conv_lhs => rw [msbBytes]
  rw [if_neg (by omega)]

theorem msbBytes_ge100 (n : Nat) (h : 100 ≤ n) :
    msbBytes n = msbBytes (n / 100) ++ [48 + n % 100 / 10, 48 + n % 10] := by
  rw [msbBytes_ge10 n (by omega), msbBytes_ge10 (n / 10) (by omega),
    Nat.div_div_eq_div_mul]
  have h1 : n / 10 % 10 = n % 100 / 10 := by omega
  rw [h1, List.append_assoc]
  norm_num

theorem msbBytes_ne_nil (n : Nat) : msbBytes n ≠ [] := by
  by_cases h : n < 10
  · rw [msbBytes_lt10 n h]; simp
  · rw [msbBytes_ge10 n (by omega)]; simp

theorem msbBytes_mem (n : Nat) : ∀ c ∈ msbBytes n, 48 ≤ c ∧ c ≤ 57 := by
  induction n using Nat.strong_induction_on with
  | _ n ih =>
    by_cases h : n < 10
    · rw [msbBytes_lt10 n h]
      intro c hc
      simp at hc
      omega
    · rw [msbBytes_ge10 n (by omega)]
      intro c hc
      rcases List.mem_append.mp hc with hc | hc
      · exact ih (n / 10) (by omega) c hc
      · simp at hc
        omega

theorem msbBytes_len : ∀ k, 1 ≤ k → ∀ n, n < 10 ^ k →
    (msbBytes n).length ≤ k := by
  intro k
  induction k with
  | zero => omega
  | succ k ih =>
    intro _ n hn
    by_cases h : n < 10
    · rw [msbBytes_lt10 n h]
      simp
    · have hk : 1 ≤ k := by
        by_contra hk0
        have hk1 : k = 0 := by omega
        subst hk1
        norm_num at hn
        omega
      have hn10 : n / 10 < 10 ^ k := by
        rw [Nat.div_lt_iff_lt_mul (by norm_num)]
        calc n < 10 ^ (k + 1) := hn
          _ = 10 ^ k * 10 := by ring
      have := ih hk (n / 10) hn10
      rw [msbBytes_ge10 n (by omega)]
      simp only [List.length_append, List.length_singleton]
      omega

/-! ## The digit phase of itob64 produces the decimal digits -/

theorem itobLoop_base (u : Nat) (s : List Nat) (h : u < 100) :
    itobLoop u s = (u, s) := by
  unfold itobLoop
  rw [dif_neg (by omega)]

theorem itobLoop_step (u : Nat) (s : List Nat) (h : 100 ≤ u) :
    itobLoop u s = itobLoop (u / 100)
      (tableGet digits10 (u - u / 100 * 100) ::
        tableGet digits01 (u - u / 100 * 100) :: s) := by
  conv_lhs => rw [itobLoop]
  rw [dif_pos h]

theorem digitsPhase_eq (u : Nat) : ∀ s, digitsPhase u s = msbBytes u ++ s := by
  induction u using Nat.strong_induction_on with
  | _ u ih =>
    intro s
    by_cases h100 : 100 ≤ u
    · have hj : u - u / 100 * 100 = u % 100 := by omega
      have hj100 : u % 100 < 100 := by omega
      rw [digitsPhase, itobLoop_step u s h100, hj,
        tableGet10_eq _ hj100, tableGet01_eq _ hj100]
      have hrec := ih (u / 100) (by omega)
        ((48 + u % 100 / 10) :: (48 + u % 100 % 10) :: s)
      rw [digitsPhase] at hrec
      rw [hrec, msbBytes_ge100 u h100]
      have hmm : u % 100 % 10 = u % 10 := by omega
      rw [hmm, List.append_assoc]
      norm_num
    · by_cases h10 : 10 ≤ u
      · rw [digitsPhase, itobLoop_base u s (by omega), midFinal]
        simp only [if_pos h10]
        have hj : u - u / 10 * 10 = u % 10 := by omega
        rw [hj, tableGet01_eq _ (by omega), tableGet01_eq _ (by omega)]
        have e1 : u % 10 % 10 = u % 10 := by omega
        have e2 : u / 10 % 10 = u / 10 := by omega
        rw [e1, e2, msbBytes_ge10 u h10, msbBytes_lt10 (u / 10) (by omega)]
        simp
      · rw [digitsPhase, itobLoop_base u s (by omega), midFinal]
        simp only [if_neg h10]
        rw [tableGet01_eq _ (by omega)]
        have e1 : u % 10 = u := by omega
        rw [e1, msbBytes_lt10 u (by omega)]
        simp

/-! ## itob64 always emits a prefix of the full decimal representation -/

theorem take_trunc (l : List Nat) (blen : Nat) :
    l.take (if blen < l.length then blen else l.length) = l.take blen := by
  split
  · rfl
  · rw [List.take_length, List.take_of_length_le (by omega)]

theorem itob64_take (i : Int) (blen : Nat)
    (h1 : -9223372036854775808 ≤ i) (h2 : i < 9223372036854775808)
    (h3 : 1 ≤ blen) :
    itob64 i blen = (fullDecimalRep i).take blen := by
  have hne : ¬(blen < 1) := by omega
  by_cases hz : i = 0
  · subst hz
    unfold itob64 fullDecimalRep
    rw [if_neg hne, if_pos rfl, if_neg (by norm_num), Int.natAbs_zero,
      msbBytes_lt10 0 (by norm_num), List.nil_append,
      List.take_of_length_le (by simpa using h3)]
  · by_cases hneg : i < 0
    · have hu : toUint64 (wrap64 (-i)) = i.natAbs := by
        unfold toUint64 wrap64
        omega
      unfold itob64 fullDecimalRep
      rw [if_neg hne, if_neg hz]
      simp only [if_pos hneg, hu, digitsPhase_eq, List.append_nil]
      rw [take_trunc, List.singleton_append]
    · have hu : toUint64 i = i.natAbs := by
        unfold toUint64
        omega
      unfold itob64 fullDecimalRep
      rw [if_neg hne, if_neg hz]
      simp only [if_neg hneg, hu, digitsPhase_eq, List.append_nil]
      rw [take_trunc, List.nil_append]

theorem fullDecimalRep_len (i : Int)
    (h1 : -9223372036854775808 ≤ i) (h2 : i < 9223372036854775808) :
    (fullDecimalRep i).length ≤ 20 := by
  have habs : i.natAbs < 10 ^ 19 := by
    have h19 : (10 : Nat) ^ 19 = 10000000000000000000 := by norm_num
    omega
  have hlen := msbBytes_len 19 (by norm_num) i.natAbs habs
  unfold fullDecimalRep
  split <;> simp <;> omega

/-! ## btoi64 decodes a digit string by wrapping accumulation -/

theorem btoiLoop_msb (n : Nat) : ∀ rest acc,
    btoiLoop (msbBytes n ++ rest) acc =
      btoiLoop rest (wrap64 (acc * 10 ^ (msbBytes n).length + n)) := by
  induction n using Nat.strong_induction_on with
  | _ n ih =>
    intro rest acc
    by_cases h : n < 10
    · rw [msbBytes_lt10 n h, List.singleton_append]
      simp only [btoiLoop]
      rw [if_neg (by push_cast; omega)]
      have hc : (((48 + n : Nat) : Int) - 48) = (n : Int) := by push_cast; ring
      rw [hc, List.length_singleton, pow_one]
    · rw [msbBytes_ge10 n (by omega), List.append_assoc,
        ih (n / 10) (by omega), List.singleton_append]
      simp only [btoiLoop]
      rw [if_neg (by push_cast; omega)]
      have hc : (((48 + n % 10 : Nat) : Int) - 48) = ((n % 10 : Nat) : Int) := by
        push_cast; ring
      rw [hc, wrap64_mul10_add]
      simp only [List.length_append, List.length_singleton]
      have harg : (acc * 10 ^ (msbBytes (n / 10)).length + ((n / 10 : Nat) : Int)) *
          10 + ((n % 10 : Nat) : Int) =
          acc * 10 ^ ((msbBytes (n / 10)).length + 1) + (n : Int) := by
        have hn : ((n : Nat) : Int) = 10 * ((n / 10 : Nat) : Int) +
            ((n % 10 : Nat) : Int) := by push_cast; omega
        rw [pow_succ]
        linear_combination -hn
      rw [harg]

theorem btoiLoop_msb_nil (n : Nat) :
    btoiLoop (msbBytes n) 0 = .ok (wrap64 (n : Int)) := by
  have h := btoiLoop_msb n [] 0
  rw [List.append_nil] at h
  rw [h]
  simp only [btoiLoop]
  norm_num

theorem msbBytes_headD (n : Nat) : (msbBytes n).headD 0 ≠ 45 := by
  obtain ⟨a, t, ht⟩ := List.exists_cons_of_ne_nil (msbBytes_ne_nil n)
  have ha : a ∈ msbBytes n := by rw [ht]; simp
  have := msbBytes_mem n a ha
  rw [ht]
  simp only [List.headD_cons]
  omega

/-- C5: for every signed 64-bit integer `i` and every buffer of at least
21 bytes, decoding the encoding round-trips exactly:
`btoi64 (itob64 i buf) = i` with no error, including the maximum-negative
value whose magnitude is computed via the unsigned representation. -/
theorem itob64_btoi64_roundtrip (i : Int) (blen : Nat)
    (h1 : -(2 ^ 63) ≤ i) (h2 : i < 2 ^ 63) (h3 : 21 ≤ blen) :
    btoi64 (itob64 i blen) = .ok i := by
  have h1' : -9223372036854775808 ≤ i := by norm_num at h1; exact h1
  have h2' : i < 9223372036854775808 := by norm_num at h2; exact h2
  rw [itob64_take i blen h1' h2' (by omega),
    List.take_of_length_le (le_trans (fullDecimalRep_len i h1' h2') (by omega))]
  unfold fullDecimalRep
  by_cases hneg : i < 0
  · rw [if_pos hneg, List.singleton_append]
    unfold btoi64
    rw [if_neg (by simp), if_pos (by simp)]
    rw [if_neg (by simpa [List.length_eq_zero] using msbBytes_ne_nil i.natAbs)]
    simp only [List.drop_succ_cons, List.drop_zero]
    rw [btoiLoop_msb_nil]
    show Except.ok (wrap64 (-wrap64 ((i.natAbs : Nat) : Int))) = Except.ok i
    rw [wrap64_neg_wrap]
    have hcast : ((i.natAbs : Nat) : Int) = -i := by omega
    rw [hcast, neg_neg, wrap64_eq_self i h1' h2']
  · rw [if_neg hneg, List.nil_append]
    unfold btoi64
    rw [if_neg (by simpa [List.length_eq_zero] using msbBytes_ne_nil i.natAbs),
      if_neg (msbBytes_headD i.natAbs), btoiLoop_msb_nil]
    show Except.ok (wrap64 ((i.natAbs : Nat) : Int)) = Except.ok i
    have hcast : ((i.natAbs : Nat) : Int) = i := by omega
    rw [hcast, wrap64_eq_self i h1' h2']

/-- Witness for the round-trip theorem, at the maximum-negative int64 and
the minimal sufficient buffer size. -/
theorem itob64_btoi64_roundtrip_witness :
    btoi64 (itob64 (-9223372036854775808) 21) =
      .ok (-9223372036854775808) :=
  itob64_btoi64_roundtrip (-9223372036854775808) 21 (by norm_num)
    (by norm_num) (by norm_num)

/-- C9: for every int64 `i` and every non-empty buffer shorter than the
full decimal representation of `i` (sign included), `itob64 i` returns
exactly `blen` bytes matching byte-for-byte the leading
(most-significant-first) prefix of the full untruncated representation. -/
theorem itob64_truncates (i : Int) (blen : Nat)
    (h1 : -(2 ^ 63) ≤ i) (h2 : i < 2 ^ 63) (h3 : 1 ≤ blen)
    (h4 : blen < (fullDecimalRep i).length) :
    (itob64 i blen).length = blen ∧
      itob64 i blen = (fullDecimalRep i).take blen := by
  have h1' : -9223372036854775808 ≤ i := by norm_num at h1; exact h1
  have h2' : i < 9223372036854775808 := by norm_num at h2; exact h2
  have ht := itob64_take i blen h1' h2' h3
  refine ⟨?_, ht⟩
  rw [ht, List.length_take]
  omega

theorem fullDecimalRep_12345 : fullDecimalRep 12345 = [49, 50, 51, 52, 53] := by
  unfold fullDecimalRep
  rw [if_neg (by norm_num), List.nil_append,
    show (12345 : Int).natAbs = 12345 from rfl,
    msbBytes_ge10 12345 (by norm_num),
    show (12345 : Nat) / 10 = 1234 from rfl,
    show 48 + (12345 : Nat) % 10 = 53 from rfl,
    msbBytes_ge10 1234 (by norm_num),
    show (1234 : Nat) / 10 = 123 from rfl,
    show 48 + (1234 : Nat) % 10 = 52 from rfl,
    msbBytes_ge10 123 (by norm_num),
    show (123 : Nat) / 10 = 12 from rfl,
    show 48 + (123 : Nat) % 10 = 51 from rfl,
    msbBytes_ge10 12 (by norm_num),
    show (12 : Nat) / 10 = 1 from rfl,
    show 48 + (12 : Nat) % 10 = 50 from rfl,
    msbBytes_lt10 1 (by norm_num)]
  rfl

/-- Witness for the truncation theorem: the five-digit 12345 into a
three-byte buffer. -/
theorem itob64_truncates_witness :
    (itob64 12345 3).length = 3 ∧
      itob64 12345 3 = (fullDecimalRep 12345).take 3 :=
  itob64_truncates 12345 3 (by norm_num) (by norm_num) (by norm_num)
    (by rw [fullDecimalRep_12345]; norm_num)

/-! ## Error characterization of btoi64 -/

theorem btoiLoop_err_iff (ds : List Nat) : ∀ acc,
    (btoiLoop ds acc = .error .invalidValue ↔ ∃ c ∈ ds, c < 48 ∨ 57 < c) := by
  induction ds with
  | nil =>
    intro acc
    simp [btoiLoop]
  | cons c rest ih =>
    intro acc
    simp only [btoiLoop]
    by_cases hc : ((c : Int) - 48) < 0 ∨ 9 < ((c : Int) - 48)
    · rw [if_pos hc]
      constructor
      · intro _
        exact ⟨c, by simp, by omega⟩
      · intro _
        rfl
    · rw [if_neg hc, ih]
      constructor
      · rintro ⟨x, hx, hxr⟩
        exact ⟨x, by simp [hx], hxr⟩
      · rintro ⟨x, hx, hxr⟩
        rcases List.mem_cons.mp hx with h | h
        · subst h
          omega
        · exact ⟨x, h, hxr⟩

theorem btoiLoop_total (ds : List Nat) : ∀ acc,
    btoiLoop ds acc = .error .invalidValue ∨
      ∃ v, btoiLoop ds acc = .ok v := by
  induction ds with
  | nil =>
    intro acc
    exact .inr ⟨acc, rfl⟩
  | cons c rest ih =>
    intro acc
    simp only [btoiLoop]
    split
    · exact .inl rfl
    · exact ih _

/-- C10: `btoi64` returns `ErrInvalidValue` exactly when its input is
empty, a lone `-`, or contains a byte outside `'0'..'9'` after the
optional leading `-`; every other input decodes to a value with no error
(no overflow checking: the accumulation wraps). -/
theorem btoi64_invalid_iff (b : List Nat) :
    (btoi64 b = .error .invalidValue ↔
      b = [] ∨ b = [45] ∨
        ∃ c ∈ b.drop (if b.headD 0 = 45 then 1 else 0), c < 48 ∨ 57 < c) ∧
    (btoi64 b ≠ .error .invalidValue → ∃ v, btoi64 b = .ok v) := by
  rcases b with _ | ⟨a, t⟩
  · refine ⟨by simp [btoi64], ?_⟩
    intro h
    exact absurd rfl h
  · by_cases h45 : a = 45
    · subst h45
      rcases t with _ | ⟨a2, t2⟩
      · refine ⟨by simp [btoi64], ?_⟩
        intro h
        exact absurd rfl h
      · have hun : btoi64 (45 :: a2 :: t2) =
            match btoiLoop (a2 :: t2) 0 with
            | .error e => .error e
            | .ok v => .ok (wrap64 (-v)) := by
          unfold btoi64
          rw [if_neg (by simp), if_pos (by simp), if_neg (by simp)]
          simp only [List.drop_succ_cons, List.drop_zero]
        rcases btoiLoop_total (a2 :: t2) 0 with h | ⟨v, h⟩
        · rw [h] at hun
          constructor
          · rw [hun]
            simp only [true_iff]
            refine .inr (.inr ?_)
            simp only [List.headD_cons, if_pos rfl, List.drop_succ_cons,
              List.drop_zero]
            exact (btoiLoop_err_iff (a2 :: t2) 0).mp h
          · intro hne
            exact absurd hun hne
        · rw [h] at hun
          constructor
          · rw [hun]
            constructor
            · intro hh
              exact absurd hh (by simp)
            · intro hh
              rcases hh with hh | hh | hh
              · exact absurd hh (by simp)
              · exact absurd hh (by simp)
              · simp only [List.headD_cons, if_pos rfl, List.drop_succ_cons,
                  List.drop_zero] at hh
                have := (btoiLoop_err_iff (a2 :: t2) 0).mpr hh
                rw [h] at this
                exact absurd this (by simp)
          · intro _
            exact ⟨wrap64 (-v), hun⟩
    · have hun : btoi64 (a :: t) =
          match btoiLoop (a :: t) 0 with
          | .error e => .error e
          | .ok v => .ok v := by
        unfold btoi64
        rw [if_neg (by simp), if_neg (by simpa using h45)]
      rcases btoiLoop_total (a :: t) 0 with h | ⟨v, h⟩
      · rw [h] at hun
        constructor
        · rw [hun]
          simp only [true_iff]
          refine .inr (.inr ?_)
          simp only [List.headD_cons, if_neg h45, List.drop_zero]
          exact (btoiLoop_err_iff (a :: t) 0).mp h
        · intro hne
          exact absurd hun hne
      · rw [h] at hun
        constructor
        · rw [hun]
          constructor
          · intro hh
            exact absurd hh (by simp)
          · intro hh
            rcases hh with hh | hh | hh
            · exact absurd hh (by simp)
            · rcases List.cons_eq_cons.mp hh with ⟨ha, _⟩
              exact absurd ha h45
            · simp only [List.headD_cons, if_neg h45, List.drop_zero] at hh
              have := (btoiLoop_err_iff (a :: t) 0).mpr hh
              rw [h] at this
              exact absurd this (by simp)
        · intro _
          exact ⟨v, hun⟩

/-- Witness for the btoi64 error characterization: the input `"123Q"`
fails with `ErrInvalidValue`. -/
theorem btoi64_invalid_iff_witness :
    btoi64 [49, 50, 51, 81] = .error .invalidValue :=
  (btoi64_invalid_iff [49, 50, 51, 81]).1.mpr
    (.inr (.inr (by decide)))

/-! ## The parseErrReply out-of-bounds index -/

/-- C1 (code defect): `parseErrReply` calls `strings.SplitN(s, " ", 1)`,
which always yields a one-element slice, and then indexes `p[1]`; the
error-reading path therefore panics with an out-of-bounds index on every
error reply line instead of returning an `ErrReply` value. -/
theorem parseErrReply_oob : ∀ s, parseErrReply s = none := fun _ => rfl

/-- C7 (code defect): in `readStatusBytes` the error-marker arm hands the
line to `parseErrReply`, which panics on every input; evaluated here on
the error frame `"-ERR boom\r\n"` (the status, null-status and mismatch
arms of the dispatch are unaffected). -/
theorem readStatusBytes_errReply_oob :
    readStatusBytes [45, 69, 82, 82, 32, 98, 111, 111, 109, 13, 10] =
      none := rfl

/-- C2 (code defect): resolving a pipeline of one bulk reply against the
server error frame `"-ERR x\r\n"` panics inside `parseErrReply` instead
of storing the server-level error on the reply and returning the
connection to the pool. -/
theorem pipelineFlush_errReply_oob :
    pipelineFlush ⟨[], 6⟩ 7 [ReplyKind.bulk]
      [45, 69, 82, 82, 32, 120, 13, 10] = none := rfl

/-! ## Pool capacity -/

/-- C4 counterexample: push one connection at capacity 6, then lower the
capacity to 0 via `SetMaxIdleConncetions`; the free list now holds more
connections than the configured maximum. -/
theorem pool_capacity_cex :
    (poolRun ⟨[], 6⟩ [PoolOp.push 1, PoolOp.setMax 0]).maxIdleConn <
      ((poolRun ⟨[], 6⟩
        [PoolOp.push 1, PoolOp.setMax 0]).idleConn.length : Int) := by
  decide

theorem poolStep_preserves (p : Pool) (op : PoolOp)
    (hinv : (p.idleConn.length : Int) ≤ p.maxIdleConn)
    (hop : ∀ m, op ≠ PoolOp.setMax m) :
    ((poolStep p op).idleConn.length : Int) ≤ (poolStep p op).maxIdleConn := by
  cases op with
  | push c =>
    show ((pushConnection p c).1.idleConn.length : Int) ≤
      (pushConnection p c).1.maxIdleConn
    unfold pushConnection
    by_cases hc : p.maxIdleConn ≤ (p.idleConn.length : Int)
    · rw [if_pos hc]
      exact hinv
    · rw [if_neg hc]
      simp
      omega
  | pop fresh =>
    show ((popConnection p fresh).1.idleConn.length : Int) ≤
      (popConnection p fresh).1.maxIdleConn
    unfold popConnection
    by_cases hc : p.idleConn.length = 0
    · rw [if_pos hc]
      exact hinv
    · rw [if_neg hc]
      simp [List.length_dropLast]
      omega
  | setMax m => exact absurd rfl (hop m)

theorem poolRun_preserves (ops : List PoolOp) : ∀ p : Pool,
    (p.idleConn.length : Int) ≤ p.maxIdleConn →
    (∀ op ∈ ops, ∀ m, op ≠ PoolOp.setMax m) →
    ((poolRun p ops).idleConn.length : Int) ≤ (poolRun p ops).maxIdleConn := by
  induction ops with
  | nil =>
    intro p h _
    exact h
  | cons op rest ih =>
    intro p h hops
    exact ih (poolStep p op)
      (poolStep_preserves p op h (hops op (by simp)))
      (fun o ho m => hops o (by simp [ho]) m)

/-- C4 (amended): over every sequence of acquires and releases under an
unchanged configured maximum, the idle free list never holds more
connections than the maximum, and a release arriving when the free list
is at or above capacity closes that connection and leaves the free list
unchanged.  (The original claim fails once `SetMaxIdleConncetions` lowers
the capacity below the current free-list size: nothing is evicted.) -/
theorem pool_capacity_amended (p : Pool) (ops : List PoolOp)
    (hinv : (p.idleConn.length : Int) ≤ p.maxIdleConn)
    (hops : ∀ op ∈ ops, ∀ m, op ≠ PoolOp.setMax m) :
    ((poolRun p ops).idleConn.length : Int) ≤ (poolRun p ops).maxIdleConn ∧
      ∀ c, p.maxIdleConn ≤ (p.idleConn.length : Int) →
        (pushConnection p c).2 = true ∧ (pushConnection p c).1 = p := by
  refine ⟨poolRun_preserves ops p hinv hops, ?_⟩
  intro c hc
  unfold pushConnection
  rw [if_pos hc]
  exact ⟨rfl, rfl⟩

/-- Witness for the amended pool-capacity theorem: a full pool of two
connections at capacity two, drained once and refilled once, stays within
capacity, and a release into the full pool closes the connection. -/
theorem pool_capacity_amended_witness :
    ((poolRun ⟨[1, 2], 2⟩ [PoolOp.pop 9, PoolOp.push 7]).idleConn.length :
        Int) ≤ (poolRun ⟨[1, 2], 2⟩ [PoolOp.pop 9, PoolOp.push 7]).maxIdleConn ∧
      (pushConnection ⟨[1, 2], 2⟩ 5).2 = true ∧
      (pushConnection ⟨[1, 2], 2⟩ 5).1 = ⟨[1, 2], 2⟩ := by
  have h := pool_capacity_amended ⟨[1, 2], 2⟩ [PoolOp.pop 9, PoolOp.push 7]
    (by decide)
    (by
      intro op hop m
      rcases List.mem_cons.mp hop with h1 | h1
      · subst h1
        simp
      · rcases List.mem_cons.mp h1 with h2 | h2
        · subst h2
          simp
        · simp at h2)
  exact ⟨h.1, h.2 5 (by decide)⟩

/-! ## withConnection release policy -/

/-- C3: for every request executed through `withConnection`: a `nil` or
server-level (`ErrReply`) outcome routes the connection back to the pool
(appended when below capacity, closed otherwise); any other error closes
the connection's socket and never places it in the free list. -/
theorem withConnection_release (p : Pool) (fresh : Nat)
    (body : Nat → Option GoError) :
    (∀ e, body (popConnection p fresh).2 = some e → isErrReplyE e = false →
      (withConnection p fresh body).pool = (popConnection p fresh).1 ∧
      (withConnection p fresh body).closedOnError = true ∧
      (withConnection p fresh body).closedByPool = false) ∧
    ((body (popConnection p fresh).2 = none ∨
        ∃ t m, body (popConnection p fresh).2 = some (.errReply t m)) →
      (withConnection p fresh body).closedOnError = false ∧
      (if (popConnection p fresh).1.maxIdleConn ≤
          ((popConnection p fresh).1.idleConn.length : Int)
       then (withConnection p fresh body).pool = (popConnection p fresh).1 ∧
         (withConnection p fresh body).closedByPool = true
       else (withConnection p fresh body).pool.idleConn =
           (popConnection p fresh).1.idleConn ++ [(popConnection p fresh).2] ∧
         (withConnection p fresh body).closedByPool = false)) := by
  constructor
  · intro e he hne
    simp only [withConnection, he, hne]
    exact ⟨rfl, rfl, rfl⟩
  · intro hcase
    have hstruct : withConnection p fresh body =
        ⟨(pushConnection (popConnection p fresh).1 (popConnection p fresh).2).1,
          (popConnection p fresh).2, false,
          (pushConnection (popConnection p fresh).1 (popConnection p fresh).2).2,
          body (popConnection p fresh).2⟩ := by
      rcases hcase with hnone | ⟨t, m, hsome⟩
      · simp only [withConnection, hnone]
      · simp only [withConnection, hsome, isErrReplyE, if_pos]
    rw [hstruct]
    refine ⟨rfl, ?_⟩
    by_cases hc : (popConnection p fresh).1.maxIdleConn ≤
        (((popConnection p fresh).1.idleConn.length : Int))
    · rw [if_pos hc]
      unfold pushConnection
      rw [if_pos hc]
      exact ⟨rfl, rfl⟩
    · rw [if_neg hc]
      unfold pushConnection
      rw [if_neg hc]
      exact ⟨rfl, rfl⟩

/-- Witness for the release-policy theorem: a successful body on an empty
pool does not close the socket. -/
theorem withConnection_release_witness :
    (withConnection ⟨[], 6⟩ 3 (fun _ => none)).closedOnError = false :=
  ((withConnection_release ⟨[], 6⟩ 3 (fun _ => none)).2 (Or.inl rfl)).1

/-! ## The SET status check -/

/-- C6: for a successful underlying status request, `Client.set` (hence
Set/SetNX/SetXX) reports `ErrInvalidStatus` exactly for a non-null status
different from `"OK"`; an `"OK"` or null status yields no error. -/
theorem clientSet_status_check (status : Option (List Nat)) :
    (clientSet status none).2 =
      if status = none ∨ status = some okStatus then none
      else some GoError.invalidStatus := by
  unfold clientSet
  by_cases h1 : status = none
  · simp [h1]
  · by_cases h2 : status = some okStatus
    · simp [h1, h2]
    · simp [h1, h2]

/-! ## Negative bulk lengths -/

/-- C8 counterexample: for the error marker the claim fails.  The stream
`"--5\r\n"` carries a line that decodes to the negative integer -5, yet
`readBulkBytes` does not return an absent value with no error: the error
marker is diverted to the error-reading path before the length decode
(and there the `parseErrReply` defect panics). -/
theorem readBulk_negative_cex :
    readBulkBytes [45, 45, 53, 13, 10] = none := rfl

theorem takeLine_no_lf (l rest : List Nat) (h : 10 ∉ l) :
    takeLine (l ++ 10 :: rest) = some (l, rest) := by
  induction l with
  | nil =>
    rw [List.nil_append, takeLine, if_pos rfl]
  | cons c t ih =>
    have hc : ¬c = 10 := fun hh => h (by simp [hh])
    have ht : 10 ∉ t := fun hm => h (by simp [hm])
    rw [List.cons_append, takeLine, if_neg hc, ih ht]
    rfl

theorem bufioReadLine_frame (line rest : List Nat) (hnl : 10 ∉ line)
    (hlen : line.length ≤ 4094) :
    bufioReadLine (line ++ [13, 10] ++ rest) = .ok (line, false, rest) := by
  have h13 : (10 : Nat) ∉ line ++ [13] := by
    intro hm
    rcases List.mem_append.mp hm with hm | hm
    · exact hnl hm
    · simp at hm
  have harr : line ++ [13, 10] ++ rest = (line ++ [13]) ++ 10 :: rest := by
    simp
  rw [harr]
  simp only [bufioReadLine, takeLine_no_lf _ _ h13]
  rw [if_pos (by simp only [List.length_append, List.length_singleton]; omega),
    stripCR, if_pos (by rw [List.getLast?_concat]), List.dropLast_concat]

theorem btoiLoop_ok_mem (ds : List Nat) (acc v : Int)
    (h : btoiLoop ds acc = .ok v) : ∀ c ∈ ds, 48 ≤ c ∧ c ≤ 57 := by
  intro c hc
  by_contra hbad
  have herr : btoiLoop ds acc = .error .invalidValue :=
    (btoiLoop_err_iff ds acc).mpr ⟨c, hc, by omega⟩
  rw [h] at herr
  exact absurd herr (by simp)

theorem btoi64_ok_no_lf (b : List Nat) (n : Int) (h : btoi64 b = .ok n) :
    10 ∉ b := by
  intro hmem
  rcases b with _ | ⟨a, t⟩
  · simp at hmem
  · by_cases h45 : a = 45
    · subst h45
      rcases t with _ | ⟨a2, t2⟩
      · simp [btoi64] at h
      · have hun : btoi64 (45 :: a2 :: t2) =
            match btoiLoop (a2 :: t2) 0 with
            | .error e => .error e
            | .ok v => .ok (wrap64 (-v)) := by
          unfold btoi64
          rw [if_neg (by simp), if_pos (by simp), if_neg (by simp)]
          simp only [List.drop_succ_cons, List.drop_zero]
        rcases btoiLoop_total (a2 :: t2) 0 with hbl | ⟨v, hbl⟩
        · rw [hbl] at hun
          rw [hun] at h
          exact absurd h (by simp)
        · have hmem2 : 10 ∈ a2 :: t2 := by
            rcases List.mem_cons.mp hmem with h10 | h10
            · omega
            · exact h10
          have := btoiLoop_ok_mem (a2 :: t2) 0 v hbl 10 hmem2
          omega
    · have hun : btoi64 (a :: t) =
          match btoiLoop (a :: t) 0 with
          | .error e => .error e
          | .ok v => .ok v := by
        unfold btoi64
        rw [if_neg (by simp), if_neg (by simpa using h45)]
      rcases btoiLoop_total (a :: t) 0 with hbl | ⟨v, hbl⟩
      · rw [hbl] at hun
        rw [hun] at h
        exact absurd h (by simp)
      · have := btoiLoop_ok_mem (a :: t) 0 v hbl 10 hmem
        omega

theorem readI64_frame (m : Nat) (line rest : List Nat) (n : Int)
    (hm : m ≠ 45) (hlen : line.length ≤ 4094) (hdec : btoi64 line = .ok n) :
    readI64 (m :: (line ++ [13, 10] ++ rest)) = some (n, m, none, rest) := by
  have hnl : 10 ∉ line := btoi64_ok_no_lf line n hdec
  unfold readI64
  simp only [bufioReadByte]
  rw [if_neg hm]
  simp only [bufioReadLine_frame line rest hnl hlen]
  rw [if_neg (by simp)]
  simp only [hdec]

/-- C8 (amended): in every bulk read, a length line that decodes to a
negative value returns an absent value (nil / empty string) and no error
immediately, before the bulk-marker check — for any marker other than the
error marker, which the generic integer-framed read diverts to the
error-reading path before any length decode. -/
theorem readBulk_negative_amended (m : Nat) (line rest : List Nat) (n : Int)
    (hm : m ≠ 45) (hlen : line.length ≤ 4094)
    (hdec : btoi64 line = .ok n) (hneg : n < 0) :
    readBulkBytes (m :: (line ++ [13, 10] ++ rest)) =
        some (none, none, rest) ∧
      readBulkString (m :: (line ++ [13, 10] ++ rest)) =
        some ([], none, rest) := by
  have hr := readI64_frame m line rest n hm hlen hdec
  constructor
  · unfold readBulkBytes
    simp only [hr]
    rw [if_pos hneg]
  · unfold readBulkString
    simp only [hr]
    rw [if_pos hneg]

/-- Witness for the amended negative-length theorem: an integer marker
with line `"-5"`. -/
theorem readBulk_negative_amended_witness :
    readBulkBytes (58 :: ([45, 53] ++ [13, 10] ++ [])) =
        some (none, none, []) ∧
      readBulkString (58 :: ([45, 53] ++ [13, 10] ++ [])) =
        some ([], none, []) :=
  readBulk_negative_amended 58 [45, 53] [] (-5) (by decide) (by decide)
    (by rfl) (by decide)

end Redis
